import Mathlib

/-!
# Verification of the brine-bn128-bls BLS signature library

A shallow embedding of the library's core routines (src/hash.rs, src/privkey.rs,
src/utils.rs, src/threshold.rs, src/g1.rs, src/g2.rs, src/min_sig/hash.rs,
src/min_pk/g1_point.rs) together with proofs about them.

All byte strings are modelled as `List Nat` (one entry per byte).  The host
runtime's BN254 syscalls (`alt_bn128_addition`, `alt_bn128_multiplication`,
`alt_bn128_pairing`, the G1/G2 compression and decompression routines) and
SHA-256 are external trusted oracles; they are modelled as an explicit bundle
of functions (`Oracles`) that every embedded routine takes as an argument.
Fallible oracles return `Option`.  Each embedded routine also returns the
sequence of oracle calls it performed (`List OCall`), so that statements of
the form "rejects before doing any pairing work" are directly expressible.
-/

/-- Byte strings: one `Nat` per byte. -/
abbrev Bytes : Type := List Nat

/-- The BN254 (alt_bn128) base-field prime `p`.
Modelled from the spec: `src/src/consts.rs` is not present under `src/`; the
spec defines `MODULUS` as "the BN254 base-field prime `p`" (§3). -/
def MODULUS : Nat :=
  21888242871839275222246405745257275088696311157297823662689037894645226208583

/-- Rejection-sampling bound for uniform reduction mod `p`.
Modelled from the spec: `src/src/consts.rs` is not present under `src/`; the
spec defines `NORMALIZE_MODULUS` as `⌊2^256 / p⌋ · p`, the largest multiple of
`p` that is at most `2^256` (§3); `⌊2^256 / p⌋ = 5` for BN254
(the in-tree comment in `src/min_sig/hash.rs` likewise calls it "Fq * 5"). -/
def NORMALIZE_MODULUS : Nat := 5 * MODULUS

/-- Big-endian interpretation of a byte string (dashu `UBig::from_be_bytes`). -/
def beToNat (bs : Bytes) : Nat := bs.foldl (fun acc b => acc * 256 + b) 0

/-- Minimal big-endian byte encoding, fuel-driven.  The fuel only needs to
cover the byte length of the argument; every use in this file serializes
values below `2^256`, i.e. at most 32 bytes. -/
def natToBEAux : Nat → Nat → Bytes
  | 0, _ => []
  | fuel + 1, n => if n = 0 then [] else natToBEAux fuel (n / 256) ++ [n % 256]

/-- Minimal big-endian byte encoding of a natural number, with no leading zero
bytes and the empty string for `0` (the semantics of dashu
`UBig::to_be_bytes`, which both G1 hash-to-curve routines call). -/
def natToBE (n : Nat) : Bytes := natToBEAux 64 n

/-- Left-pad a minimal big-endian encoding to exactly 32 bytes
(the `pad32` helper of `src/min_pk/hash.rs`, applied to `natToBE`). -/
def pad32 (n : Nat) : Bytes :=
  List.replicate (32 - (natToBE n).length) 0 ++ natToBE n

/-- x-coordinate `c0` limb of the BN254 G2 generator. -/
def g2GenXC0 : Nat :=
  10857046999023057135944570762232829481370756359578518086990519993285655852781

/-- x-coordinate `c1` limb of the BN254 G2 generator. -/
def g2GenXC1 : Nat :=
  11559732032986387107991004021392285783925812861821192530917403151452391805634

/-- y-coordinate `c0` limb of the BN254 G2 generator. -/
def g2GenYC0 : Nat :=
  8495653923123431417604973247489272438418190587263600148770280649306958101930

/-- y-coordinate `c1` limb of the BN254 G2 generator. -/
def g2GenYC1 : Nat :=
  4082367875863433681332203403145435568316851327593401208105741076214120093531

/-- The canonical 128-byte host-layout encoding of the negated G2 generator.
Modelled from the spec: `src/src/consts.rs` is not present under `src/`; the
spec fixes the layout `x.c1(32) ‖ x.c0(32) ‖ y.c1(32) ‖ y.c0(32)`, big-endian
(§3, §6), and `G2_MINUS_ONE` as the encoding of the negated generator (§3);
negation flips the sign of `y`, i.e. replaces each `y` limb by `p - y`. -/
def G2_MINUS_ONE : Bytes :=
  pad32 g2GenXC1 ++ pad32 g2GenXC0 ++
    pad32 (MODULUS - g2GenYC1) ++ pad32 (MODULUS - g2GenYC0)

/-- The canonical 64-byte encoding of the negated G1 generator.
Modelled from the spec: `src/src/consts.rs` is not present under `src/`; the
G1 generator is `(1, 2)` (§4.2) and the layout is `x(32) ‖ y(32)` big-endian
(§6), so the negated generator is `(1, p - 2)`. -/
def G1_MINUS_ONE : Bytes := pad32 1 ++ pad32 (MODULUS - 2)

/-- The canonical 32-byte `GT` identity sentinel returned by the pairing
oracle on success: 31 zero bytes followed by `0x01`. -/
def GT_ONE : Bytes := List.replicate 31 0 ++ [1]

/-- One call to a host oracle, with the exact input bytes handed over. -/
inductive OCall : Type
  | sha (parts : List Bytes)
  | g1add (input : Bytes)
  | g1mul (input : Bytes)
  | pairing (input : Bytes)
  | g1compress (input : Bytes)
  | g1decompress (input : Bytes)
  | g2compress (input : Bytes)
  | g2decompress (input : Bytes)
deriving DecidableEq

/-- Is a logged oracle call a pairing call? -/
def OCall.isPairing : OCall → Bool
  | OCall.pairing _ => true
  | _ => false

/-- The host-provided trusted oracle bundle (spec §6).  Fallible oracles
return `none` on failure. -/
structure Oracles : Type 1 where
  sha256v : List Bytes → Bytes
  g1add : Bytes → Option Bytes
  g1mul : Bytes → Option Bytes
  pairing : Bytes → Option Bytes
  g1compress : Bytes → Option Bytes
  g1decompress : Bytes → Option Bytes
  g2compress : Bytes → Option Bytes
  g2decompress : Bytes → Option Bytes

/-- The BLS error taxonomy of `src/src/errors.rs`. -/
inductive BLSError : Type
  | SecretKeyError
  | AltBN128AddError
  | AltBN128MulError
  | AltBN128PairingError
  | HashToCurveError
  | BLSSigningError
  | BLSVerificationError
  | SerializationError
  | G1PointCompressionError
  | G1PointDecompressionError
  | G2PointCompressionError
  | G2PointDecompressionError
deriving DecidableEq

/-- Result of an embedded routine: the Rust `Result` together with the
sequence of oracle calls the routine performed, in order. -/
abbrev MRes (α : Type) : Type := Except BLSError α × List OCall

/-- `buf[off .. off + src.length] := src`, the functional form of Rust
`buf[off..off+len].copy_from_slice(&src)` (in every use in this file the
source slice fits inside the buffer, which is what the Rust slice types
enforce). -/
def writeSlice (buf : Bytes) (off : Nat) (src : Bytes) : Bytes :=
  buf.take off ++ src ++ buf.drop (off + src.length)

/-- The SHA-256 domain tag `"BLS-BN254-RO"` used by `src/src/hash.rs`. -/
def DST : Bytes := [66, 76, 83, 45, 66, 78, 50, 53, 52, 45, 82, 79]

/-- One try-and-increment sweep shared by the two G1 hash-to-curve routines
(`hash_to_curve` in `src/src/hash.rs` and `Sha256::try_hash_to_curve` in
`src/src/min_sig/hash.rs`), which differ only in how the SHA-256 input is
assembled from the message and the nonce (the `parts` argument).  For each
nonce: hash, interpret big-endian, rejection-sample against
`NORMALIZE_MODULUS`, reduce mod `MODULUS`, serialize with dashu
`to_be_bytes` (minimal length, `natToBE`), and attempt the G1 decompression
oracle. -/
def g1HashFind (O : Oracles) (parts : Nat → List Bytes) : List Nat → MRes Bytes
  | [] => (Except.error BLSError.HashToCurveError, [])
  | n :: rest =>
    let hbytes := O.sha256v (parts n)
    let u := beToNat hbytes
    if NORMALIZE_MODULUS ≤ u then
      let r := g1HashFind O parts rest
      (r.1, OCall.sha (parts n) :: r.2)
    else
      let ser := natToBE (u % MODULUS)
      match O.g1decompress ser with
      | some p => (Except.ok p, [OCall.sha (parts n), OCall.g1decompress ser])
      | none =>
        let r := g1HashFind O parts rest
        (r.1, OCall.sha (parts n) :: OCall.g1decompress ser :: r.2)

/-- `hash_to_curve` of `src/src/hash.rs`: try-and-increment over nonces
`0..255` hashing `"BLS-BN254-RO" ‖ message ‖ [nonce]`. -/
def hash_to_curve (O : Oracles) (message : Bytes) : MRes Bytes :=
  g1HashFind O (fun n => [DST, message, [n]]) (List.range 255)

/-- `Sha256::try_hash_to_curve` of `src/src/min_sig/hash.rs`: the same sweep
but hashing `message ‖ [nonce]` with no domain tag. -/
def minSigTryHashToCurve (O : Oracles) (message : Bytes) : MRes Bytes :=
  g1HashFind O (fun n => [message, [n]]) (List.range 255)

/-- `bls_partial_sign` of `src/src/utils.rs` (the Rust name contains a word
this development cannot use in identifiers; here it is `blsPartSign`):
hash the message to G1, build the 96-byte input `H(m)(64) ‖ sk(32)` and call
the G1 scalar-multiplication oracle; the signature is the first 64 bytes of
the oracle output (`out[..64]`).  Oracle failure maps to `AltBN128MulError`. -/
def blsPartSign (O : Oracles) (sk : Bytes) (message : Bytes) : MRes Bytes :=
  match hash_to_curve O message with
  | (Except.error e, t) => (Except.error e, t)
  | (Except.ok h_g1, t) =>
    let inbuf := writeSlice (writeSlice (List.replicate 96 0) 0 h_g1) 64 sk
    match O.g1mul inbuf with
    | none => (Except.error BLSError.AltBN128MulError, t ++ [OCall.g1mul inbuf])
    | some out => (Except.ok (out.take 64), t ++ [OCall.g1mul inbuf])

/-- The augmented signing variant `bls_partial_sign_augmented` of
`src/src/utils.rs` (`blsPartSignAugmented` here): identical to `blsPartSign`
except that the hashed message is `signer_pk_g2.0 ‖ message`. -/
def blsPartSignAugmented (O : Oracles) (sk : Bytes) (message : Bytes)
    (signerPkG2 : Bytes) : MRes Bytes :=
  let m := signerPkG2 ++ message
  match hash_to_curve O m with
  | (Except.error e, t) => (Except.error e, t)
  | (Except.ok h_g1, t) =>
    let inbuf := writeSlice (writeSlice (List.replicate 96 0) 0 h_g1) 64 sk
    match O.g1mul inbuf with
    | none => (Except.error BLSError.AltBN128MulError, t ++ [OCall.g1mul inbuf])
    | some out => (Except.ok (out.take 64), t ++ [OCall.g1mul inbuf])

/-- `PrivKey::sign` of `src/src/privkey.rs`: hash the message to G1, build
`[&point.0[..], &self.0[..]].concat()` and call the G1
scalar-multiplication oracle, whose full 64-byte output is cloned into the
signature.  Oracle failure maps to `BLSSigningError`. -/
def privKeySign (O : Oracles) (sk : Bytes) (message : Bytes) : MRes Bytes :=
  match hash_to_curve O message with
  | (Except.error e, t) => (Except.error e, t)
  | (Except.ok point, t) =>
    let input := point ++ sk
    match O.g1mul input with
    | none => (Except.error BLSError.BLSSigningError, t ++ [OCall.g1mul input])
    | some out => (Except.ok out, t ++ [OCall.g1mul input])

/-- The accumulation loop of `aggregate_partials` over `partials[1..]`:
each step builds the 128-byte buffer `acc ‖ s`, calls the G1 addition oracle
and replaces `acc` by the first 64 bytes of the result. -/
def aggLoop (O : Oracles) (acc : Bytes) : List Bytes → MRes Bytes
  | [] => (Except.ok acc, [])
  | s :: rest =>
    let inbuf := writeSlice (writeSlice (List.replicate 128 0) 0 acc) 64 s
    match O.g1add inbuf with
    | none => (Except.error BLSError.AltBN128AddError, [OCall.g1add inbuf])
    | some out =>
      let r := aggLoop O (out.take 64) rest
      (r.1, OCall.g1add inbuf :: r.2)

/-- `aggregate_partials` of `src/src/utils.rs` (`aggregateSigs` here): reject
the empty list with `SerializationError`, otherwise fold the G1 addition
oracle over the tail starting from the first element. -/
def aggregateSigs (O : Oracles) (sigs : List Bytes) : MRes Bytes :=
  match sigs with
  | [] => (Except.error BLSError.SerializationError, [])
  | p :: rest => aggLoop O p rest

/-- `check_no_duplicate_pubkeys` of `src/src/utils.rs`: the nested
`i < j` index loop returns `false` exactly when some earlier entry is
byte-identical to a later one, which is what this recursion checks. -/
def check_no_duplicate_pubkeys : List Bytes → Bool
  | [] => true
  | p :: rest => !(rest.any (fun q => p == q)) && check_no_duplicate_pubkeys rest

/-- The pairing-input fill loop of `verify_fast_aggregate` (and of
`verify_a1_with_indices` once the keys are looked up): for the `i`-th key,
write `h` at offset `192·i` and the key at offset `192·i + 64`. -/
def fillPairs (h : Bytes) : Nat → List Bytes → Bytes → Bytes
  | _, [], buf => buf
  | i, pk :: rest, buf =>
    fillPairs h (i + 1) rest
      (writeSlice (writeSlice buf (192 * i) h) (192 * i + 64) pk)

/-- The complete pairing input assembled by `verify_fast_aggregate`: a zeroed
`192·(k+1)`-byte vector, the `(h, PK_i)` pairs written in caller order, then
the final pair `(s_sum, G2_MINUS_ONE)` at offset `192·k`. -/
def buildAggInput (h : Bytes) (pks : List Bytes) (s_sum : Bytes) : Bytes :=
  let k := pks.length
  writeSlice
    (writeSlice (fillPairs h 0 pks (List.replicate (192 * (k + 1)) 0))
      (192 * k) s_sum)
    (192 * k + 64) G2_MINUS_ONE

/-- The acceptance test `r.iter().take(31).all(|&b| b == 0) && r[31] == 1`
used by `verify_fast_aggregate`, `verify_augmented` and
`verify_a1_with_indices` on the pairing-oracle output. -/
def isGTOne (r : Bytes) : Bool :=
  (r.take 31).all (fun b => b == 0) && (r[31]? == some 1)

/-- `verify_fast_aggregate` of `src/src/utils.rs`: reject an empty key list,
then a list with duplicate keys, with `SerializationError`; hash the message
to G1 once; assemble the `(k+1)`-pair input; call the pairing oracle and
accept exactly the `GT` identity. -/
def verify_fast_aggregate (O : Oracles) (message : Bytes)
    (signer_pubkeys : List Bytes) (s_sum : Bytes) : MRes Unit :=
  let k := signer_pubkeys.length
  if k = 0 then (Except.error BLSError.SerializationError, [])
  else if !check_no_duplicate_pubkeys signer_pubkeys then
    (Except.error BLSError.SerializationError, [])
  else
    match hash_to_curve O message with
    | (Except.error e, t) => (Except.error e, t)
    | (Except.ok h_g1, t) =>
      let input := buildAggInput h_g1 signer_pubkeys s_sum
      match O.pairing input with
      | none =>
        (Except.error BLSError.AltBN128PairingError, t ++ [OCall.pairing input])
      | some r =>
        (if isGTOne r then Except.ok () else Except.error BLSError.BLSVerificationError,
          t ++ [OCall.pairing input])

/-- The per-signer fill loop of `verify_augmented`: for the `i`-th key,
hash `pk ‖ message` to G1 (short-circuiting on hash failure) and write the
pair `(h_i, pk)` at offset `192·i`. -/
def augFill (O : Oracles) (message : Bytes) :
    Nat → List Bytes → Bytes → MRes Bytes
  | _, [], buf => (Except.ok buf, [])
  | i, pk :: rest, buf =>
    match hash_to_curve O (pk ++ message) with
    | (Except.error e, t) => (Except.error e, t)
    | (Except.ok h_g1, t) =>
      let r := augFill O message (i + 1) rest
        (writeSlice (writeSlice buf (192 * i) h_g1) (192 * i + 64) pk)
      (r.1, t ++ r.2)

/-- `verify_augmented` of `src/src/utils.rs`: as `verify_fast_aggregate`,
but each pair is `(H("pk_i ‖ m"), pk_i)` with the hash recomputed per
signer. -/
def verify_augmented (O : Oracles) (message : Bytes)
    (signer_pubkeys : List Bytes) (s_sum : Bytes) : MRes Unit :=
  let k := signer_pubkeys.length
  if k = 0 then (Except.error BLSError.SerializationError, [])
  else if !check_no_duplicate_pubkeys signer_pubkeys then
    (Except.error BLSError.SerializationError, [])
  else
    match augFill O message 0 signer_pubkeys (List.replicate (192 * (k + 1)) 0) with
    | (Except.error e, t) => (Except.error e, t)
    | (Except.ok buf, t) =>
      let input := writeSlice (writeSlice buf (192 * k) s_sum)
        (192 * k + 64) G2_MINUS_ONE
      match O.pairing input with
      | none =>
        (Except.error BLSError.AltBN128PairingError, t ++ [OCall.pairing input])
      | some r =>
        (if isGTOne r then Except.ok () else Except.error BLSError.BLSVerificationError,
          t ++ [OCall.pairing input])

/-- The key-lookup and fill loop of `verify_a1_with_indices`: for the `i`-th
index, look the key up through the provider (bubbling its error unchanged)
and write the pair `(h, pk)` at offset `192·i`. -/
def thresholdFill (provider : Nat → Except BLSError Bytes) (h : Bytes) :
    Nat → List Nat → Bytes → Except BLSError Bytes
  | _, [], buf => Except.ok buf
  | i, idx :: rest, buf =>
    match provider idx with
    | Except.error e => Except.error e
    | Except.ok pk =>
      thresholdFill provider h (i + 1) rest
        (writeSlice (writeSlice buf (192 * i) h) (192 * i + 64) pk)

/-- `verify_a1_with_indices` of `src/src/threshold.rs`: reject an empty index
list with `SerializationError`; hash the message to G1; look each index up
through the `PubkeyProvider` while filling the `(k+1)`-pair input; append the
final pair `(s_sum, G2_MINUS_ONE)`; call the pairing oracle and accept
exactly the `GT` identity.  Note: no duplicate check of any kind. -/
def verify_a1_with_indices (O : Oracles) (message : Bytes)
    (signer_indices : List Nat) (s_sum : Bytes)
    (provider : Nat → Except BLSError Bytes) : MRes Unit :=
  let k := signer_indices.length
  if k = 0 then (Except.error BLSError.SerializationError, [])
  else
    match hash_to_curve O message with
    | (Except.error e, t) => (Except.error e, t)
    | (Except.ok h_g1, t) =>
      match thresholdFill provider h_g1 0 signer_indices
          (List.replicate (192 * (k + 1)) 0) with
      | Except.error e => (Except.error e, t)
      | Except.ok buf =>
        let input := writeSlice (writeSlice buf (192 * k) s_sum)
          (192 * k + 64) G2_MINUS_ONE
        match O.pairing input with
        | none =>
          (Except.error BLSError.AltBN128PairingError, t ++ [OCall.pairing input])
        | some r =>
          (if isGTOne r then Except.ok () else Except.error BLSError.BLSVerificationError,
            t ++ [OCall.pairing input])

/-- The 384-byte two-pair input assembled by `G2Point::verify` of
`src/src/g2.rs`: `H(m)(64) ‖ PK(128) ‖ sig(64) ‖ G2_MINUS_ONE(128)`. -/
def g2VerifyInput (h pk sig : Bytes) : Bytes :=
  writeSlice
    (writeSlice (writeSlice (writeSlice (List.replicate 384 0) 0 h) 64 pk)
      192 sig)
    256 G2_MINUS_ONE

/-- `G2Point::verify` of `src/src/g2.rs` (min-sig single-signature verify):
hash the message to G1, assemble the two-pair input, call the pairing oracle;
return `Ok` exactly on the full 32-byte `GT_ONE` vector, any other oracle
output yields `BLSVerificationError`, and oracle failure yields
`AltBN128PairingError`. -/
def g2PointVerify (O : Oracles) (pk : Bytes) (signature : Bytes)
    (message : Bytes) : MRes Unit :=
  match hash_to_curve O message with
  | (Except.error e, t) => (Except.error e, t)
  | (Except.ok h, t) =>
    let input := g2VerifyInput h pk signature
    match O.pairing input with
    | none =>
      (Except.error BLSError.AltBN128PairingError, t ++ [OCall.pairing input])
    | some r =>
      (if r = GT_ONE then Except.ok () else Except.error BLSError.BLSVerificationError,
        t ++ [OCall.pairing input])

/-- The 384-byte two-pair input assembled by `G1Point::verify_signature` of
`src/src/min_pk/g1_point.rs`: `PK(64) ‖ H(m)(128) ‖ G1_MINUS_ONE(64) ‖
sig(128)`. -/
def minPkVerifyInput (pk hm sig : Bytes) : Bytes :=
  writeSlice
    (writeSlice (writeSlice (writeSlice (List.replicate 384 0) 0 pk) 64 hm)
      192 G1_MINUS_ONE)
    256 sig

/-- `G1Point::verify_signature` of `src/src/min_pk/g1_point.rs` (min-pk
single-signature verify).  The routine is generic over the hash-to-curve
implementation `H` and the signature abstraction `S`; they are modelled as
the function `hashG2` (for `H::try_hash_to_curve`) and the value `sigBytes`
(for `signature.to_bytes()`).  Note: in this routine a pairing-oracle
failure maps to `BLSVerificationError`, exactly as a non-identity pairing
result does. -/
def minPkG1VerifySignature (O : Oracles)
    (hashG2 : Bytes → Except BLSError Bytes) (pk : Bytes)
    (sigBytes : Except BLSError Bytes) (message : Bytes) : MRes Unit :=
  match hashG2 message with
  | Except.error e => (Except.error e, [])
  | Except.ok hm =>
    match sigBytes with
    | Except.error e => (Except.error e, [])
    | Except.ok sig =>
      let input := minPkVerifyInput pk hm sig
      match O.pairing input with
      | none =>
        (Except.error BLSError.BLSVerificationError, [OCall.pairing input])
      | some r =>
        (if r = GT_ONE then Except.ok () else Except.error BLSError.BLSVerificationError,
          [OCall.pairing input])

/-- `TryFrom<G1Point> for G1CompressedPoint` of `src/src/g1.rs`: delegate to
the G1 compression oracle, mapping failure to `G1PointCompressionError`. -/
def g1Compress (O : Oracles) (p : Bytes) : MRes Bytes :=
  match O.g1compress p with
  | some c => (Except.ok c, [OCall.g1compress p])
  | none => (Except.error BLSError.G1PointCompressionError, [OCall.g1compress p])

/-- `TryFrom<&G1CompressedPoint> for G1Point` of `src/src/g1.rs`: delegate to
the G1 decompression oracle, mapping failure to
`G1PointDecompressionError`. -/
def g1Decompress (O : Oracles) (c : Bytes) : MRes Bytes :=
  match O.g1decompress c with
  | some p => (Except.ok p, [OCall.g1decompress c])
  | none => (Except.error BLSError.G1PointDecompressionError, [OCall.g1decompress c])

/-- `TryFrom<&G2Point> for G2CompressedPoint` of `src/src/g2.rs`. -/
def g2Compress (O : Oracles) (p : Bytes) : MRes Bytes :=
  match O.g2compress p with
  | some c => (Except.ok c, [OCall.g2compress p])
  | none => (Except.error BLSError.G2PointCompressionError, [OCall.g2compress p])

/-- `TryFrom<G2CompressedPoint> for G2Point` of `src/src/g2.rs`. -/
def g2Decompress (O : Oracles) (c : Bytes) : MRes Bytes :=
  match O.g2decompress c with
  | some p => (Except.ok p, [OCall.g2decompress c])
  | none => (Except.error BLSError.G2PointDecompressionError, [OCall.g2decompress c])

/-! ## Concrete oracle bundles used by the closed witness statements -/

/-- A trivial oracle bundle: every fallible oracle fails.  Used to witness
statements that must hold for every bundle. -/
def oraclesNone : Oracles where
  sha256v := fun _ => []
  g1add := fun _ => none
  g1mul := fun _ => none
  pairing := fun _ => none
  g1compress := fun _ => none
  g1decompress := fun _ => none
  g2compress := fun _ => none
  g2decompress := fun _ => none

/-- A deterministic oracle bundle on which hash-to-curve succeeds at the very
first nonce: the SHA-256 oracle returns the one-byte digest `[1]` (value `1`,
which passes the rejection bound), and the G1 decompression oracle accepts
exactly that serialized candidate, returning a fixed 64-byte point. -/
def oraclesW : Oracles where
  sha256v := fun _ => [1]
  g1add := fun _ => none
  g1mul := fun _ => some (List.replicate 64 9)
  pairing := fun _ => some GT_ONE
  g1compress := fun _ => none
  g1decompress := fun b => if b = [1] then some (List.replicate 64 2) else none
  g2compress := fun _ => none
  g2decompress := fun _ => none

/-- A constant pubkey provider: every index resolves to the same fixed
128-byte G2 key.  Models a registry in which the looked-up keys of a
duplicated index are necessarily byte-identical. -/
def providerW : Nat → Except BLSError Bytes := fun _ => Except.ok (List.replicate 128 3)

/-- `oraclesW` with a failing pairing oracle, for exercising the
pairing-failure branches of the verification routines. -/
def oraclesWnone : Oracles :=
  { oraclesW with pairing := fun _ => none }

/-- An oracle bundle for exercising the hash-to-curve serialization step:
the SHA-256 oracle always returns the 32-byte digest of value `1` (which
passes the rejection bound), and the G1 decompression oracle models the
host's input contract by accepting only 32-byte inputs. -/
def oraclesC2 : Oracles where
  sha256v := fun _ => List.replicate 31 0 ++ [1]
  g1add := fun _ => none
  g1mul := fun _ => none
  pairing := fun _ => none
  g1compress := fun _ => none
  g1decompress := fun b => if b.length = 32 then some (List.replicate 64 2) else none
  g2compress := fun _ => none
  g2decompress := fun _ => none

/-- The error renaming that separates `PrivKey::sign` from
`bls_partial_sign`: the former reports a scalar-multiplication oracle
failure as `BLSSigningError`, the latter as `AltBN128MulError`. -/
def signErrMap : BLSError → BLSError := fun e =>
  if e = BLSError.BLSSigningError then BLSError.AltBN128MulError else e

/-! ### An algebraic model of the trusted BN254 oracles

The compression, decompression, arithmetic and pairing oracles are trusted
collaborators (spec §1, §6).  To settle the claims that depend on their
contracts — compression round-trips and the bilinear pairing identity — the
oracles are instantiated from an algebraic model: the prime-order subgroups
of G1 and G2 are cyclic, so their elements are represented by their discrete
logarithms in `ZMod r` (the generator is `1`), and the pairing of `a·G1` and
`b·G2` is `a * b` in the exponent of `e(G1, G2)`.  A `PairingModel` supplies
injective byte encodings for both groups in both forms, a scalar decoder,
the SHA-256 function, and the laws the host contracts promise. -/

/-- An algebraic model of the host's BN254 oracle contracts, over the cyclic
group `ZMod r` in discrete-logarithm representation. -/
structure PairingModel (r : Nat) : Type where
  enc1 : ZMod r → Bytes
  dec1 : Bytes → Option (ZMod r)
  enc2 : ZMod r → Bytes
  dec2 : Bytes → Option (ZMod r)
  enc1c : ZMod r → Bytes
  dec1c : Bytes → Option (ZMod r)
  enc2c : ZMod r → Bytes
  dec2c : Bytes → Option (ZMod r)
  decScalar : Bytes → ZMod r
  sha : List Bytes → Bytes
  enc1_length : ∀ a, (enc1 a).length = 64
  enc2_length : ∀ a, (enc2 a).length = 128
  dec1_enc1 : ∀ a, dec1 (enc1 a) = some a
  dec2_enc2 : ∀ a, dec2 (enc2 a) = some a
  dec1c_enc1c : ∀ a, dec1c (enc1c a) = some a
  dec2c_enc2c : ∀ a, dec2c (enc2c a) = some a
  dec2_g2MinusOne : dec2 G2_MINUS_ONE = some (-1)

/-- Split a pairing input into `(G1(64), G2(128))` chunks of 192 bytes; any
trailing fragment makes the whole input invalid.  The fuel only needs to
cover the byte length of the input. -/
def chunks192 : Nat → Bytes → Option (List (Bytes × Bytes))
  | 0, b => if b = [] then some [] else none
  | fuel + 1, b =>
    if b = [] then some []
    else if 192 ≤ b.length then
      (chunks192 fuel (b.drop 192)).map
        (fun rest => (b.take 64, (b.drop 64).take 128) :: rest)
    else none

/-- Decode every `(G1, G2)` chunk of a pairing input through the model. -/
def decodePairs {r : Nat} (M : PairingModel r) :
    List (Bytes × Bytes) → Option (List (ZMod r × ZMod r))
  | [] => some []
  | c :: rest =>
    match M.dec1 c.1, M.dec2 c.2 with
    | some a, some b => (decodePairs M rest).map (fun ps => (a, b) :: ps)
    | _, _ => none

/-- The exponent of the pairing product `Π e(A_i, B_i)` in
discrete-logarithm representation: `Σ a_i · b_i`. -/
def pairingSum {r : Nat} (ps : List (ZMod r × ZMod r)) : ZMod r :=
  (ps.map (fun p => p.1 * p.2)).sum

/-- The oracle bundle induced by an algebraic model: scalar multiplication
multiplies discrete logarithms, addition adds them, the pairing oracle
returns the `GT_ONE` sentinel exactly when the product of pairings is the
identity (`Σ a_i·b_i = 0`) and a 32-byte zero vector otherwise, and the
compression oracles convert between the two encodings. -/
def mkOracles {r : Nat} (M : PairingModel r) : Oracles where
  sha256v := M.sha
  g1add := fun input =>
    if input.length = 128 then
      match M.dec1 (input.take 64), M.dec1 (input.drop 64) with
      | some a, some b => some (M.enc1 (a + b))
      | _, _ => none
    else none
  g1mul := fun input =>
    if input.length = 96 then
      match M.dec1 (input.take 64) with
      | some a => some (M.enc1 (M.decScalar (input.drop 64) * a))
      | none => none
    else none
  pairing := fun input =>
    match chunks192 input.length input with
    | none => none
    | some cs =>
      match decodePairs M cs with
      | none => none
      | some ps =>
        if pairingSum ps = 0 then some GT_ONE else some (List.replicate 32 0)
  g1compress := fun p => (M.dec1 p).map M.enc1c
  g1decompress := fun c => (M.dec1c c).map M.enc1
  g2compress := fun p => (M.dec2 p).map M.enc2c
  g2decompress := fun c => (M.dec2c c).map M.enc2

set_option maxRecDepth 10000 in
/-- A concrete instance of the algebraic model over `ZMod 7`, with tagged
fixed-width encodings, used by the closed witness statements.  The G1
compressed decoder additionally accepts the one-byte string `[1]` (the
serialization the hash-to-curve sweep produces from a digest of value `1`),
so that hashing succeeds at the first nonce. -/
def modelW : PairingModel 7 where
  enc1 := fun a => 1 :: a.val :: List.replicate 62 0
  dec1 := fun b =>
    match b with
    | 1 :: v :: rest => if rest = List.replicate 62 0 then some (v : ZMod 7) else none
    | _ => none
  enc2 := fun a => 2 :: a.val :: List.replicate 126 0
  dec2 := fun b =>
    if b = G2_MINUS_ONE then some (-1)
    else
      match b with
      | 2 :: v :: rest => if rest = List.replicate 126 0 then some (v : ZMod 7) else none
      | _ => none
  enc1c := fun a => 3 :: a.val :: List.replicate 30 0
  dec1c := fun b =>
    if b = [1] then some 2
    else
      match b with
      | 3 :: v :: rest => if rest = List.replicate 30 0 then some (v : ZMod 7) else none
      | _ => none
  enc2c := fun a => 4 :: a.val :: List.replicate 62 0
  dec2c := fun b =>
    match b with
    | 4 :: v :: rest => if rest = List.replicate 62 0 then some (v : ZMod 7) else none
    | _ => none
  decScalar := fun b => (beToNat b : ZMod 7)
  sha := fun _ => [1]
  enc1_length := by decide
  enc2_length := by decide
  dec1_enc1 := by decide
  dec2_enc2 := by decide
  dec1c_enc1c := by decide
  dec2c_enc2c := by decide
  dec2_g2MinusOne := by decide

/-- Decidable equality for `Except`, so that closed statements about embedded
routines can be settled by `decide`. -/
instance {e a : Type} [DecidableEq e] [DecidableEq a] : DecidableEq (Except e a) := fun x y =>
  match x, y with
  | Except.ok u, Except.ok v =>
    if h : u = v then isTrue (by rw [h]) else isFalse (by intro hh; cases hh; exact h rfl)
  | Except.error u, Except.error v =>
    if h : u = v then isTrue (by rw [h]) else isFalse (by intro hh; cases hh; exact h rfl)
  | Except.ok _, Except.error _ => isFalse (by intro hh; cases hh)
  | Except.error _, Except.ok _ => isFalse (by intro hh; cases hh)

/-! ## Helper lemmas about buffers, encodings and the duplicate check -/

theorem writeSlice_append (P Q src : Bytes) (off : Nat) (hoff : off = P.length) :
    writeSlice (P ++ Q) off src = P ++ src ++ Q.drop src.length := by
  subst hoff
  unfold writeSlice
  rw [List.take_left, List.drop_append]

theorem writeSlice_append_replicate (P src : Bytes) (m off : Nat)
    (hoff : off = P.length) (_hm : src.length ≤ m) :
    writeSlice (P ++ List.replicate m 0) off src
      = P ++ src ++ List.replicate (m - src.length) 0 := by
  rw [writeSlice_append P _ src off hoff]
  simp

theorem length_natToBEAux_le (fuel n : Nat) : (natToBEAux fuel n).length ≤ fuel := by
  induction fuel generalizing n with
  | zero => simp [natToBEAux]
  | succ fuel ih =>
    by_cases h : n = 0
    · simp [natToBEAux, h]
    · simp only [natToBEAux, if_neg h, List.length_append, List.length_cons,
        List.length_nil]
      have := ih (n / 256)
      omega

set_option maxRecDepth 4000 in
theorem G2_MINUS_ONE_length : G2_MINUS_ONE.length = 128 := by decide

set_option maxRecDepth 4000 in
theorem G1_MINUS_ONE_length : G1_MINUS_ONE.length = 64 := by decide

theorem check_no_duplicate_iff (pks : List Bytes) :
    check_no_duplicate_pubkeys pks = true ↔ pks.Nodup := by
  induction pks with
  | nil => simp [check_no_duplicate_pubkeys]
  | cons p rest ih =>
    simp only [check_no_duplicate_pubkeys, Bool.and_eq_true, Bool.not_eq_true',
      List.any_eq_false, List.nodup_cons, ih, beq_iff_eq]
    constructor
    · rintro ⟨hnm, hnd⟩
      exact ⟨fun hmem => hnm p hmem rfl, hnd⟩
    · rintro ⟨hnm, hnd⟩
      exact ⟨fun q hq hpq => hnm (hpq ▸ hq), hnd⟩

theorem fillPairs_append (h : Bytes) (hh : h.length = 64) :
    ∀ (pks : List Bytes) (i : Nat) (D : Bytes) (r0 : Nat),
      (∀ pk ∈ pks, pk.length = 128) → D.length = 192 * i →
      fillPairs h i pks (D ++ List.replicate (192 * pks.length + r0) 0)
        = D ++ (pks.map (fun pk => h ++ pk)).flatten ++ List.replicate r0 0 := by
  intro pks
  induction pks with
  | nil => intro i D r0 _ _; simp [fillPairs]
  | cons pk rest ih =>
    intro i D r0 hlen hD
    have hpk : pk.length = 128 := hlen pk (List.mem_cons_self pk rest)
    have hrest : ∀ q ∈ rest, q.length = 128 := fun q hq => hlen q (List.mem_cons_of_mem pk hq)
    simp only [fillPairs]
    have hw1 : writeSlice (D ++ List.replicate (192 * (pk :: rest).length + r0) 0)
        (192 * i) h
        = (D ++ h) ++ List.replicate (192 * (pk :: rest).length + r0 - 64) 0 := by
      rw [writeSlice_append_replicate D h _ (192 * i) hD.symm (by simp; omega)]
      simp [hh, List.append_assoc]
    rw [hw1]
    have hlen2 : (D ++ h).length = 192 * i + 64 := by simp [hD, hh]
    have hw2 : writeSlice ((D ++ h) ++ List.replicate (192 * (pk :: rest).length + r0 - 64) 0)
        (192 * i + 64) pk
        = ((D ++ h) ++ pk) ++ List.replicate (192 * rest.length + r0) 0 := by
      rw [writeSlice_append_replicate (D ++ h) pk _ (192 * i + 64) hlen2.symm
        (by simp [hpk]; omega)]
      have : 192 * (pk :: rest).length + r0 - 64 - pk.length
          = 192 * rest.length + r0 := by simp [hpk]; omega
      rw [this, List.append_assoc]
    rw [hw2]
    have hDlen : ((D ++ h) ++ pk).length = 192 * (i + 1) := by
      simp [hD, hh, hpk]; omega
    rw [ih (i + 1) ((D ++ h) ++ pk) r0 hrest hDlen]
    simp [List.append_assoc]

theorem join_pairs_length (h : Bytes) (hh : h.length = 64) (pks : List Bytes)
    (hlen : ∀ pk ∈ pks, pk.length = 128) :
    ((pks.map (fun pk => h ++ pk)).flatten).length = 192 * pks.length := by
  induction pks with
  | nil => simp
  | cons pk rest ih =>
    have hpk : pk.length = 128 := hlen pk (List.mem_cons_self pk rest)
    have hrest : ∀ q ∈ rest, q.length = 128 := fun q hq => hlen q (List.mem_cons_of_mem pk hq)
    simp [ih hrest, hh, hpk]; ring

theorem buildAggInput_eq (h : Bytes) (pks : List Bytes) (s : Bytes)
    (hh : h.length = 64) (hpk : ∀ pk ∈ pks, pk.length = 128)
    (hs : s.length = 64) :
    buildAggInput h pks s = (pks.map (fun pk => h ++ pk)).flatten ++ s ++ G2_MINUS_ONE := by
  simp only [buildAggInput]
  have hrep : List.replicate (192 * (pks.length + 1)) (0 : Nat)
      = ([] : Bytes) ++ List.replicate (192 * pks.length + 192) 0 := by
    simp [Nat.mul_add]
  rw [hrep, fillPairs_append h hh pks 0 [] 192 hpk (by simp)]
  simp only [List.nil_append]
  set J := (pks.map (fun pk => h ++ pk)).flatten with hJ
  have hw1 : writeSlice (J ++ List.replicate 192 0) (192 * pks.length) s
      = (J ++ s) ++ List.replicate 128 0 := by
    rw [writeSlice_append_replicate J s 192 (192 * pks.length)
      (join_pairs_length h hh pks hpk).symm (by omega)]
    simp [hs, List.append_assoc]
  rw [hw1]
  have hlen2 : (J ++ s).length = 192 * pks.length + 64 := by
    simp [join_pairs_length h hh pks hpk, hs]
  have hw2 : writeSlice ((J ++ s) ++ List.replicate 128 0)
      (192 * pks.length + 64) G2_MINUS_ONE
      = ((J ++ s) ++ G2_MINUS_ONE) ++ [] := by
    rw [writeSlice_append_replicate (J ++ s) G2_MINUS_ONE 128
      (192 * pks.length + 64) hlen2.symm (by rw [G2_MINUS_ONE_length])]
    rw [G2_MINUS_ONE_length]
    simp [List.append_assoc]
  rw [hw2]
  simp [List.append_assoc]

/-! ## Facts about the hash-to-curve sweep -/

theorem g1HashFind_ok_decompress (O : Oracles) (parts : Nat → List Bytes) :
    ∀ (ns : List Nat) (h : Bytes),
      (g1HashFind O parts ns).1 = Except.ok h →
      ∃ ser, O.g1decompress ser = some h := by
  intro ns
  induction ns with
  | nil => intro h heq; simp [g1HashFind] at heq
  | cons n rest ih =>
    intro h heq
    simp only [g1HashFind] at heq
    by_cases hb : NORMALIZE_MODULUS ≤ beToNat (O.sha256v (parts n))
    · rw [if_pos hb] at heq
      exact ih h heq
    · rw [if_neg hb] at heq
      rcases hd : O.g1decompress (natToBE (beToNat (O.sha256v (parts n)) % MODULUS)) with - | p
      · rw [hd] at heq
        exact ih h heq
      · rw [hd] at heq
        refine ⟨natToBE (beToNat (O.sha256v (parts n)) % MODULUS), ?_⟩
        rw [hd]
        exact congrArg some (Except.ok.inj heq)

theorem hash_to_curve_ok_length (O : Oracles) (m h : Bytes) (t : List OCall)
    (hhash : hash_to_curve O m = (Except.ok h, t))
    (hc : ∀ i o, O.g1decompress i = some o → o.length = 64) : h.length = 64 := by
  obtain ⟨ser, hser⟩ := g1HashFind_ok_decompress O (fun n => [DST, m, [n]])
    (List.range 255) h (by rw [show g1HashFind O (fun n => [DST, m, [n]]) (List.range 255) = hash_to_curve O m from rfl, hhash])
  exact hc ser h hser

/-! ## Claim theorems -/

/-- **C8**: Hashing and signing are deterministic: with the same oracle
bundle, byte-identical messages give identical `hash_to_curve` results
(value and trace), and byte-identical secret keys and messages give
identical `PrivKey::sign` results.  Neither routine consults any source of
randomness: both are pure functions of the message, key and oracles. -/
theorem hash_and_sign_deterministic (O : Oracles) (m1 m2 sk1 sk2 : Bytes)
    (hm : m1 = m2) (hsk : sk1 = sk2) :
    hash_to_curve O m1 = hash_to_curve O m2
    ∧ privKeySign O sk1 m1 = privKeySign O sk2 m2 := by
  subst hm
  subst hsk
  exact ⟨rfl, rfl⟩

/-- Witness for C8 at a concrete oracle bundle, message and key. -/
theorem hash_and_sign_deterministic_witness :
    hash_to_curve oraclesW [3] = hash_to_curve oraclesW [3]
    ∧ privKeySign oraclesW [7] [3] = privKeySign oraclesW [7] [3] :=
  hash_and_sign_deterministic oraclesW [3] [3] [7] [7] rfl rfl

/-- **C10**: `aggregate_partials` returns `SerializationError` on the empty
list, and on a one-element list it returns the element's bytes unchanged
without a single G1-addition oracle call (the trace is empty), so a
singleton aggregation can never fail with `AltBN128AddError`. -/
theorem aggregateSigs_empty_and_singleton (O : Oracles) (p : Bytes) :
    aggregateSigs O [] = (Except.error BLSError.SerializationError, [])
    ∧ aggregateSigs O [p] = (Except.ok p, []) :=
  ⟨rfl, rfl⟩

/-- **C4**: `verify_fast_aggregate` and `verify_augmented` reject an empty
signer list, and a list with two byte-identical entries, with
`SerializationError` and an empty oracle trace: no hashing and no pairing
work happens before the rejection. -/
theorem aggregate_verify_rejects_empty_and_duplicates (O : Oracles)
    (m : Bytes) (pks : List Bytes) (s : Bytes)
    (hbad : pks = [] ∨ ¬ pks.Nodup) :
    verify_fast_aggregate O m pks s = (Except.error BLSError.SerializationError, [])
    ∧ verify_augmented O m pks s = (Except.error BLSError.SerializationError, []) := by
  rcases hbad with hempty | hdup
  · subst hempty
    exact ⟨rfl, rfl⟩
  · have hchk : check_no_duplicate_pubkeys pks = false := by
      rcases h : check_no_duplicate_pubkeys pks with - | -
      · rfl
      · exact absurd ((check_no_duplicate_iff pks).mp h) hdup
    by_cases hk : pks.length = 0
    · rcases List.length_eq_zero.mp hk
      exact ⟨rfl, rfl⟩
    · constructor
      · simp [verify_fast_aggregate, hk, hchk]
      · simp [verify_augmented, hk, hchk]

/-- Witness for C4: the concrete duplicate list `[PK, PK]`. -/
theorem aggregate_verify_rejects_witness :
    (([[1], [1]] : List Bytes) = [] ∨ ¬ ([[1], [1]] : List Bytes).Nodup)
    ∧ verify_fast_aggregate oraclesW [2] [[1], [1]] [3]
        = (Except.error BLSError.SerializationError, [])
    ∧ verify_augmented oraclesW [2] [[1], [1]] [3]
        = (Except.error BLSError.SerializationError, []) :=
  ⟨Or.inr (by decide),
    (aggregate_verify_rejects_empty_and_duplicates oraclesW [2] [[1], [1]] [3]
      (Or.inr (by decide))).1,
    (aggregate_verify_rejects_empty_and_duplicates oraclesW [2] [[1], [1]] [3]
      (Or.inr (by decide))).2⟩

/-- **C5**: for a non-empty duplicate-free key list, `verify_fast_aggregate`
assembles its pairing input as the `k` pairs `(h, PK_i)` in caller order
followed by the final pair `(s_sum, G2_MINUS_ONE)`, the input is exactly
`192·(k+1)` bytes, and the oracle trace is the single hash-to-curve sweep
(`h` is computed once) followed by exactly one pairing call on that input. -/
theorem verify_fast_aggregate_pairing_layout (O : Oracles) (m : Bytes)
    (pks : List Bytes) (s h : Bytes) (t : List OCall)
    (hne : pks ≠ []) (hnd : pks.Nodup)
    (hhash : hash_to_curve O m = (Except.ok h, t))
    (hh : h.length = 64) (hpk : ∀ pk ∈ pks, pk.length = 128)
    (hs : s.length = 64) :
    buildAggInput h pks s
        = (pks.map (fun pk => h ++ pk)).flatten ++ s ++ G2_MINUS_ONE
      ∧ (buildAggInput h pks s).length = 192 * (pks.length + 1)
      ∧ (verify_fast_aggregate O m pks s).2
          = t ++ [OCall.pairing (buildAggInput h pks s)] := by
  have hlay := buildAggInput_eq h pks s hh hpk hs
  have hlenval : (buildAggInput h pks s).length = 192 * (pks.length + 1) := by
    rw [hlay]
    simp only [List.length_append, join_pairs_length h hh pks hpk, hs,
      G2_MINUS_ONE_length]
    ring
  refine ⟨hlay, hlenval, ?_⟩
  have hk : ¬ pks.length = 0 := fun h0 => hne (List.length_eq_zero.mp h0)
  have hchk : check_no_duplicate_pubkeys pks = true :=
    (check_no_duplicate_iff pks).mpr hnd
  simp only [verify_fast_aggregate, if_neg hk, hchk, Bool.not_true,
    Bool.false_eq_true, if_false, hhash]
  rcases hp : O.pairing (buildAggInput h pks s) with - | r <;> simp [hp]

set_option maxRecDepth 10000 in
/-- Witness for C5 at a concrete bundle on which hashing succeeds at the
first nonce, with one 128-byte key and a 64-byte aggregate. -/
theorem verify_fast_aggregate_pairing_layout_witness :
    ([List.replicate 128 3] : List Bytes) ≠ []
    ∧ (verify_fast_aggregate oraclesW [] [List.replicate 128 3]
          (List.replicate 64 4)).2
        = [OCall.sha [DST, [], [0]], OCall.g1decompress [1]]
          ++ [OCall.pairing (buildAggInput (List.replicate 64 2)
                [List.replicate 128 3] (List.replicate 64 4))] :=
  ⟨by decide,
    (verify_fast_aggregate_pairing_layout oraclesW [] [List.replicate 128 3]
      (List.replicate 64 4) (List.replicate 64 2)
      [OCall.sha [DST, [], [0]], OCall.g1decompress [1]]
      (by decide) (by decide) (by decide) (by decide) (by decide)
      (by decide)).2.2⟩

set_option maxRecDepth 10000 in
/-- **C1** (divergence evidence): `verify_a1_with_indices` performs no
duplicate detection.  With the index list `[0, 0]`, whose two looked-up keys
are byte-identical, and a pairing oracle that returns the `GT` identity, the
routine returns `Ok` — it does not return `SerializationError`, and its
trace contains a pairing-oracle call.  Under the claim (threshold
verification follows the fast-aggregate protocol, which rejects duplicate
keys before pairing) the result would be `SerializationError` with no
pairing call. -/
theorem verify_a1_with_indices_accepts_duplicate_indices :
    providerW 0 = Except.ok (List.replicate 128 3)
    ∧ (verify_a1_with_indices oraclesW [] [0, 0] (List.replicate 64 4)
        providerW).1 = Except.ok ()
    ∧ (verify_a1_with_indices oraclesW [] [0, 0] (List.replicate 64 4)
        providerW).1 ≠ Except.error BLSError.SerializationError
    ∧ ((verify_a1_with_indices oraclesW [] [0, 0] (List.replicate 64 4)
        providerW).2.any OCall.isPairing) = true := by
  refine ⟨rfl, ?_, ?_, ?_⟩ <;> decide

set_option maxRecDepth 10000 in
/-- **C2** (divergence evidence): in both G1 hash-to-curve routines the
candidate `u mod p` is serialized with dashu `to_be_bytes`, which produces
the *minimal* big-endian encoding with no left padding.  With a digest of
value `1` — which passes the rejection-sampling bound — the byte string
handed to the G1 decompression oracle is the single byte `[1]`, not the
32-byte left-padded string the claim describes; a decompression oracle that
(like the host's) accepts only 32-byte inputs therefore rejects every nonce
and the sweep fails with `HashToCurveError`, and no call in the trace ever
carries the 32-byte padded encoding. -/
theorem g1_hash_serialization_not_padded :
    beToNat (oraclesC2.sha256v [DST, [], [0]]) = 1
    ∧ ¬ NORMALIZE_MODULUS ≤ 1
    ∧ natToBE (1 % MODULUS) = [1]
    ∧ ([1] : Bytes).length ≠ 32
    ∧ pad32 (1 % MODULUS) = List.replicate 31 0 ++ [1]
    ∧ (hash_to_curve oraclesC2 []).1 = Except.error BLSError.HashToCurveError
    ∧ OCall.g1decompress [1] ∈ (hash_to_curve oraclesC2 []).2
    ∧ OCall.g1decompress (pad32 (1 % MODULUS)) ∉ (hash_to_curve oraclesC2 []).2
    ∧ (minSigTryHashToCurve oraclesC2 []).1 = Except.error BLSError.HashToCurveError
    ∧ OCall.g1decompress [1] ∈ (minSigTryHashToCurve oraclesC2 []).2
    ∧ OCall.g1decompress (pad32 (1 % MODULUS)) ∉ (minSigTryHashToCurve oraclesC2 []).2 := by
  refine ⟨?_, ?_, ?_, ?_, ?_, ?_, ?_, ?_, ?_, ?_, ?_⟩ <;> decide

/-- **C3 (amended)**: single-signature verification in both schemes returns
`Ok` exactly when the pairing oracle returns the 32-byte `GT_ONE` sentinel,
and any other returned byte vector yields `BLSVerificationError`.  On a
pairing-oracle *failure* the two schemes differ: min-sig `G2Point::verify`
returns `AltBN128PairingError`, while min-pk `G1Point::verify_signature`
returns `BLSVerificationError`. -/
theorem single_verify_pairing_outcomes (O : Oracles) (pk sig m h : Bytes)
    (t : List OCall) (hashG2 : Bytes → Except BLSError Bytes)
    (pk2 hm sig2 m2 : Bytes)
    (hhash : hash_to_curve O m = (Except.ok h, t))
    (hhash2 : hashG2 m2 = Except.ok hm) :
    (O.pairing (g2VerifyInput h pk sig) = none →
      (g2PointVerify O pk sig m).1 = Except.error BLSError.AltBN128PairingError)
    ∧ (∀ r, O.pairing (g2VerifyInput h pk sig) = some r →
      (g2PointVerify O pk sig m).1
        = if r = GT_ONE then Except.ok ()
          else Except.error BLSError.BLSVerificationError)
    ∧ (O.pairing (minPkVerifyInput pk2 hm sig2) = none →
      (minPkG1VerifySignature O hashG2 pk2 (Except.ok sig2) m2).1
        = Except.error BLSError.BLSVerificationError)
    ∧ (∀ r, O.pairing (minPkVerifyInput pk2 hm sig2) = some r →
      (minPkG1VerifySignature O hashG2 pk2 (Except.ok sig2) m2).1
        = if r = GT_ONE then Except.ok ()
          else Except.error BLSError.BLSVerificationError) := by
  refine ⟨?_, ?_, ?_, ?_⟩
  · intro hp
    simp [g2PointVerify, hhash, hp]
  · intro r hp
    simp [g2PointVerify, hhash, hp]
  · intro hp
    simp [minPkG1VerifySignature, hhash2, hp]
  · intro r hp
    simp [minPkG1VerifySignature, hhash2, hp]

set_option maxRecDepth 10000 in
/-- Counterexample to **C3** as stated: on a pairing-oracle failure, min-pk
`G1Point::verify_signature` returns `BLSVerificationError` — not the
`AltBN128PairingError` the claim asserts. -/
theorem minpk_pairing_failure_error_counterexample :
    (minPkG1VerifySignature oraclesWnone (fun _ => Except.ok (List.replicate 128 5))
        (List.replicate 64 6) (Except.ok (List.replicate 128 7)) []).1
      = Except.error BLSError.BLSVerificationError
    ∧ BLSError.BLSVerificationError ≠ BLSError.AltBN128PairingError := by
  exact ⟨by decide, by decide⟩

set_option maxRecDepth 10000 in
/-- Witness for the amended C3 at a concrete bundle with a failing pairing
oracle: the two schemes report the two different errors. -/
theorem single_verify_pairing_outcomes_witness :
    (g2PointVerify oraclesWnone (List.replicate 128 5) (List.replicate 64 6)
        []).1 = Except.error BLSError.AltBN128PairingError
    ∧ (minPkG1VerifySignature oraclesWnone
        (fun _ => Except.ok (List.replicate 128 8)) (List.replicate 64 6)
        (Except.ok (List.replicate 128 7)) []).1
      = Except.error BLSError.BLSVerificationError :=
  ⟨(single_verify_pairing_outcomes oraclesWnone (List.replicate 128 5)
      (List.replicate 64 6) [] (List.replicate 64 2)
      [OCall.sha [DST, [], [0]], OCall.g1decompress [1]]
      (fun _ => Except.ok (List.replicate 128 8)) (List.replicate 64 6)
      (List.replicate 128 8) (List.replicate 128 7) []
      (by decide) rfl).1 rfl,
    (single_verify_pairing_outcomes oraclesWnone (List.replicate 128 5)
      (List.replicate 64 6) [] (List.replicate 64 2)
      [OCall.sha [DST, [], [0]], OCall.g1decompress [1]]
      (fun _ => Except.ok (List.replicate 128 8)) (List.replicate 64 6)
      (List.replicate 128 8) (List.replicate 128 7) []
      (by decide) rfl).2.2.1 rfl⟩

/-- **C7**: under the host oracle contracts (algebraic model `M`),
compression and decompression are mutual byte-level inverses on encoded
subgroup points in both groups: decompressing the compression of a
materialized (canonically encoded) G1 or G2 point returns the original
64- or 128-byte encoding, and whenever `compress P = c` and
`decompress c = P2`, re-compressing gives `compress P2 = c`. -/
theorem compress_decompress_roundtrip (r : Nat) (M : PairingModel r)
    (a b : ZMod r) :
    ((g1Compress (mkOracles M) (M.enc1 a)).1 = Except.ok (M.enc1c a)
      ∧ (g1Decompress (mkOracles M) (M.enc1c a)).1 = Except.ok (M.enc1 a))
    ∧ ((g2Compress (mkOracles M) (M.enc2 b)).1 = Except.ok (M.enc2c b)
      ∧ (g2Decompress (mkOracles M) (M.enc2c b)).1 = Except.ok (M.enc2 b))
    ∧ (∀ P c P2, (g1Compress (mkOracles M) P).1 = Except.ok c →
        (g1Decompress (mkOracles M) c).1 = Except.ok P2 →
        (g1Compress (mkOracles M) P2).1 = Except.ok c)
    ∧ (∀ P c P2, (g2Compress (mkOracles M) P).1 = Except.ok c →
        (g2Decompress (mkOracles M) c).1 = Except.ok P2 →
        (g2Compress (mkOracles M) P2).1 = Except.ok c) := by
  refine ⟨⟨?_, ?_⟩, ⟨?_, ?_⟩, ?_, ?_⟩
  · simp [g1Compress, mkOracles, M.dec1_enc1]
  · simp [g1Decompress, mkOracles, M.dec1c_enc1c]
  · simp [g2Compress, mkOracles, M.dec2_enc2]
  · simp [g2Decompress, mkOracles, M.dec2c_enc2c]
  · intro P c P2 hcomp hdecomp
    rcases hdP : M.dec1 P with - | x
    · simp [g1Compress, mkOracles, hdP] at hcomp
    · simp only [g1Compress, mkOracles, hdP, Option.map_some'] at hcomp
      have hc : c = M.enc1c x := (Except.ok.inj hcomp).symm
      subst hc
      simp only [g1Decompress, mkOracles, M.dec1c_enc1c, Option.map_some'] at hdecomp
      have hP2 : P2 = M.enc1 x := (Except.ok.inj hdecomp).symm
      subst hP2
      simp [g1Compress, mkOracles, M.dec1_enc1]
  · intro P c P2 hcomp hdecomp
    rcases hdP : M.dec2 P with - | x
    · simp [g2Compress, mkOracles, hdP] at hcomp
    · simp only [g2Compress, mkOracles, hdP, Option.map_some'] at hcomp
      have hc : c = M.enc2c x := (Except.ok.inj hcomp).symm
      subst hc
      simp only [g2Decompress, mkOracles, M.dec2c_enc2c, Option.map_some'] at hdecomp
      have hP2 : P2 = M.enc2 x := (Except.ok.inj hdecomp).symm
      subst hP2
      simp [g2Compress, mkOracles, M.dec2_enc2]

set_option maxRecDepth 10000 in
/-- Witness for C7 at the concrete model instance, with concrete points in
both groups and a concrete re-compression chain. -/
theorem compress_decompress_roundtrip_witness :
    (g1Compress (mkOracles modelW) (modelW.enc1 2)).1 = Except.ok (modelW.enc1c 2)
    ∧ (g1Decompress (mkOracles modelW) (modelW.enc1c 2)).1 = Except.ok (modelW.enc1 2)
    ∧ (g2Compress (mkOracles modelW) (modelW.enc2 3)).1 = Except.ok (modelW.enc2c 3)
    ∧ (g2Decompress (mkOracles modelW) (modelW.enc2c 3)).1 = Except.ok (modelW.enc2 3)
    ∧ (g1Compress (mkOracles modelW) (modelW.enc1 2)).1 = Except.ok (modelW.enc1c 2) :=
  ⟨(compress_decompress_roundtrip 7 modelW 2 3).1.1,
    (compress_decompress_roundtrip 7 modelW 2 3).1.2,
    (compress_decompress_roundtrip 7 modelW 2 3).2.1.1,
    (compress_decompress_roundtrip 7 modelW 2 3).2.1.2,
    (compress_decompress_roundtrip 7 modelW 2 3).2.2.1 (modelW.enc1 2)
      (modelW.enc1c 2) (modelW.enc1 2) (by decide) (by decide)⟩

theorem g1HashFind_error_eq (O : Oracles) (parts : Nat → List Bytes) :
    ∀ (ns : List Nat) (e : BLSError),
      (g1HashFind O parts ns).1 = Except.error e → e = BLSError.HashToCurveError := by
  intro ns
  induction ns with
  | nil => intro e heq; simpa [g1HashFind] using heq.symm
  | cons n rest ih =>
    intro e heq
    simp only [g1HashFind] at heq
    by_cases hb : NORMALIZE_MODULUS ≤ beToNat (O.sha256v (parts n))
    · rw [if_pos hb] at heq
      exact ih e heq
    · rw [if_neg hb] at heq
      rcases hd : O.g1decompress (natToBE (beToNat (O.sha256v (parts n)) % MODULUS)) with - | p
      · rw [hd] at heq
        exact ih e heq
      · rw [hd] at heq
        cases heq

theorem mulInbuf_eq (h sk : Bytes) (hh : h.length = 64) (hsk : sk.length = 32) :
    writeSlice (writeSlice (List.replicate 96 0) 0 h) 64 sk = h ++ sk := by
  have h1 : writeSlice (List.replicate 96 0) 0 h = h ++ List.replicate 32 0 := by
    have := writeSlice_append_replicate [] h 96 0 (by simp) (by omega)
    simpa [hh] using this
  rw [h1]
  have := writeSlice_append_replicate h sk 32 64 hh.symm (by omega)
  simpa [hsk] using this

/-- **C9**: the two G1 signing paths agree.  Under the host oracle contracts
(64-byte decompression and scalar-multiplication outputs), for every
32-byte secret key and message, `bls_partial_sign` returns exactly the
result of `PrivKey::sign` — same success value (the same 64-byte point),
same oracle trace, and the same error on every failure — except that a
scalar-multiplication oracle failure is reported as `AltBN128MulError`
in place of `BLSSigningError`. -/
theorem blsPartSign_eq_privKeySign (O : Oracles) (sk m : Bytes)
    (hsk : sk.length = 32)
    (hdec : ∀ i o, O.g1decompress i = some o → o.length = 64)
    (hmul : ∀ i o, O.g1mul i = some o → o.length = 64) :
    blsPartSign O sk m
      = ((privKeySign O sk m).1.mapError signErrMap, (privKeySign O sk m).2) := by
  rcases hres : hash_to_curve O m with ⟨hr, t⟩
  rcases hr with e | h
  · have he : e = BLSError.HashToCurveError :=
      g1HashFind_error_eq O (fun n => [DST, m, [n]]) (List.range 255) e
        (by rw [show g1HashFind O (fun n => [DST, m, [n]]) (List.range 255)
            = hash_to_curve O m from rfl, hres])
    subst he
    simp [blsPartSign, privKeySign, hres, Except.mapError, signErrMap]
  · have hh : h.length = 64 := hash_to_curve_ok_length O m h t hres hdec
    have hbuf := mulInbuf_eq h sk hh hsk
    rcases hm : O.g1mul (h ++ sk) with - | out
    · simp only [blsPartSign, privKeySign, hres, hbuf]
      simp [hm, Except.mapError, signErrMap]
    · have hout : out.length = 64 := hmul (h ++ sk) out hm
      have htake : out.take 64 = out := by
        rw [show (64 : Nat) = out.length from hout.symm, List.take_length]
      simp only [blsPartSign, privKeySign, hres, hbuf]
      simp [hm, htake, Except.mapError]

/-- Witness for C9 at a concrete bundle whose oracles meet the 64-byte
output contracts, with a concrete 32-byte key. -/
theorem blsPartSign_eq_privKeySign_witness :
    blsPartSign oraclesW (List.replicate 32 5) []
      = ((privKeySign oraclesW (List.replicate 32 5) []).1.mapError signErrMap,
          (privKeySign oraclesW (List.replicate 32 5) []).2) :=
  blsPartSign_eq_privKeySign oraclesW (List.replicate 32 5) []
    (by decide)
    (by
      intro i o hio
      by_cases hi : i = [1]
      · subst hi
        simp only [oraclesW, if_pos rfl] at hio
        cases hio
        decide
      · simp [oraclesW, hi] at hio)
    (by
      intro i o hio
      simp only [oraclesW] at hio
      cases hio
      decide)

theorem take_append_of_length (P Q : Bytes) (n : Nat) (h : P.length = n) :
    (P ++ Q).take n = P := by
  subst h
  exact List.take_left P Q

theorem drop_append_of_length (P Q : Bytes) (n : Nat) (h : P.length = n) :
    (P ++ Q).drop n = Q := by
  subst h
  exact List.drop_left P Q

set_option maxRecDepth 10000 in
theorem twoPairInput_eq (x y z : Bytes) (hx : x.length = 64)
    (hy : y.length = 128) (hz : z.length = 64) :
    writeSlice (writeSlice (writeSlice (writeSlice (List.replicate 384 0) 0 x)
        64 y) 192 z) 256 G2_MINUS_ONE
      = x ++ (y ++ (z ++ G2_MINUS_ONE)) := by
  have w1 : writeSlice (List.replicate 384 0) 0 x = x ++ List.replicate 320 0 := by
    have := writeSlice_append_replicate [] x 384 0 (by simp) (by omega)
    simpa [hx] using this
  have w2 : writeSlice (x ++ List.replicate 320 0) 64 y
      = x ++ (y ++ List.replicate 192 0) := by
    have := writeSlice_append_replicate x y 320 64 hx.symm (by omega)
    simpa [hy, List.append_assoc] using this
  have w3 : writeSlice (x ++ (y ++ List.replicate 192 0)) 192 z
      = (x ++ y) ++ (z ++ List.replicate 128 0) := by
    rw [← List.append_assoc]
    have := writeSlice_append_replicate (x ++ y) z 192 192
      (by simp [hx, hy]) (by omega)
    simpa [hz, List.append_assoc] using this
  have w4 : writeSlice ((x ++ y) ++ (z ++ List.replicate 128 0)) 256 G2_MINUS_ONE
      = x ++ (y ++ (z ++ G2_MINUS_ONE)) := by
    rw [← List.append_assoc, ← List.append_assoc]
    have := writeSlice_append_replicate ((x ++ y) ++ z) G2_MINUS_ONE 128 256
      (by simp [hx, hy, hz]) (by rw [G2_MINUS_ONE_length])
    rw [this, G2_MINUS_ONE_length]
    simp [List.append_assoc]
  rw [w1, w2, w3, w4]

theorem chunks192_nil (fuel : Nat) : chunks192 fuel [] = some [] := by
  cases fuel <;> simp [chunks192]

theorem chunks192_succ (fuel : Nat) (b : Bytes) (hne : b ≠ [])
    (hlen : 192 ≤ b.length) :
    chunks192 (fuel + 1) b
      = (chunks192 fuel (b.drop 192)).map
          (fun rest => (b.take 64, (b.drop 64).take 128) :: rest) := by
  simp [chunks192, hne, hlen]

theorem chunks192_two_pairs (x y z w : Bytes) (hx : x.length = 64)
    (hy : y.length = 128) (hz : z.length = 64) (hw : w.length = 128) :
    chunks192 (x ++ (y ++ (z ++ w))).length (x ++ (y ++ (z ++ w)))
      = some [(x, y), (z, w)] := by
  have hlen : (x ++ (y ++ (z ++ w))).length = 384 := by
    simp [hx, hy, hz, hw]
  rw [hlen]
  have hne : x ++ (y ++ (z ++ w)) ≠ [] := by
    intro h0
    rw [h0] at hlen
    simp at hlen
  rw [show (384 : Nat) = 383 + 1 from rfl,
    chunks192_succ 383 _ hne (by rw [hlen]; omega)]
  have htk : (x ++ (y ++ (z ++ w))).take 64 = x := take_append_of_length _ _ _ hx
  have hdr64 : (x ++ (y ++ (z ++ w))).drop 64 = y ++ (z ++ w) :=
    drop_append_of_length _ _ _ hx
  have htk2 : (y ++ (z ++ w)).take 128 = y := take_append_of_length _ _ _ hy
  have hdr192 : (x ++ (y ++ (z ++ w))).drop 192 = z ++ w := by
    rw [show (192 : Nat) = x.length + 128 from by rw [hx], List.drop_append]
    exact drop_append_of_length _ _ _ hy
  rw [htk, hdr64, htk2, hdr192]
  have hne2 : z ++ w ≠ [] := by
    intro h0
    have : (z ++ w).length = 0 := by rw [h0]; rfl
    simp [hz, hw] at this
  rw [show (383 : Nat) = 382 + 1 from rfl,
    chunks192_succ 382 _ hne2 (by simp [hz, hw])]
  have htkz : (z ++ w).take 64 = z := take_append_of_length _ _ _ hz
  have hdrz : (z ++ w).drop 64 = w := drop_append_of_length _ _ _ hz
  have htkw : w.take 128 = w := by
    rw [show (128 : Nat) = w.length from hw.symm, List.take_length]
  have hdrall : (z ++ w).drop 192 = [] := by
    rw [show (192 : Nat) = (z ++ w).length from by simp [hz, hw], List.drop_length]
  rw [htkz, hdrz, htkw, hdrall, chunks192_nil]
  rfl

theorem isGTOne_GT_ONE : isGTOne GT_ONE = true := by decide

/-- **C6**: the augmented variant binds the signer key into the hash.  Under
the oracle contracts (algebraic model `M`), `bls_partial_sign_augmented`
produces `[sk]·H1(pk_bytes ‖ m)` — there is an exponent `a` with
`H1(pk ‖ m) = a·G1` and `sig = (sk·a)·G1` — and `verify_augmented`, which
rehashes `pk ‖ m` for the signer, accepts that partial for the signer list
`[pk]` whenever `pk` is the G2 public key of `sk`. -/
theorem augmented_sign_verifies (r : Nat) (M : PairingModel r)
    (sk m pk sig : Bytes) (t : List OCall)
    (hsk : sk.length = 32) (hpk128 : pk.length = 128)
    (hpksk : M.dec2 pk = some (M.decScalar sk))
    (hsign : blsPartSignAugmented (mkOracles M) sk m pk = (Except.ok sig, t)) :
    (∃ a : ZMod r,
        (hash_to_curve (mkOracles M) (pk ++ m)).1 = Except.ok (M.enc1 a)
        ∧ sig = M.enc1 (M.decScalar sk * a))
    ∧ (verify_augmented (mkOracles M) m [pk] sig).1 = Except.ok () := by
  rcases hres : hash_to_curve (mkOracles M) (pk ++ m) with ⟨hr, th⟩
  rcases hr with e | h
  · simp [blsPartSignAugmented, hres] at hsign
  · obtain ⟨a, ha⟩ : ∃ a, h = M.enc1 a := by
      obtain ⟨ser, hser⟩ := g1HashFind_ok_decompress (mkOracles M)
        (fun n => [DST, pk ++ m, [n]]) (List.range 255) h
        (by rw [show g1HashFind (mkOracles M) (fun n => [DST, pk ++ m, [n]])
            (List.range 255) = hash_to_curve (mkOracles M) (pk ++ m) from rfl,
          hres])
      simp only [mkOracles] at hser
      obtain ⟨v, -, hv⟩ := Option.map_eq_some'.mp hser
      exact ⟨v, hv.symm⟩
    subst ha
    have hh64 : (M.enc1 a).length = 64 := M.enc1_length a
    simp only [blsPartSignAugmented, hres] at hsign
    rw [mulInbuf_eq _ sk hh64 hsk] at hsign
    have hlen96 : (M.enc1 a ++ sk).length = 96 := by simp [hh64, hsk]
    have htake : (M.enc1 a ++ sk).take 64 = M.enc1 a :=
      take_append_of_length _ _ _ hh64
    have hdrop : (M.enc1 a ++ sk).drop 64 = sk :=
      drop_append_of_length _ _ _ hh64
    simp only [mkOracles, hlen96, if_pos, htake, hdrop, M.dec1_enc1] at hsign
    have hsiglen : (M.enc1 (M.decScalar sk * a)).take 64
        = M.enc1 (M.decScalar sk * a) := by
      rw [show (64 : Nat) = (M.enc1 (M.decScalar sk * a)).length from
        (M.enc1_length _).symm, List.take_length]
    rw [hsiglen] at hsign
    have hsig : sig = M.enc1 (M.decScalar sk * a) :=
      (Except.ok.inj (congrArg Prod.fst hsign)).symm
    refine ⟨⟨a, rfl, hsig⟩, ?_⟩
    subst hsig
    have hsl64 : (M.enc1 (M.decScalar sk * a)).length = 64 := M.enc1_length _
    rw [verify_augmented]
    simp only [List.length_cons, List.length_nil]
    rw [if_neg (by omega)]
    have hchk : check_no_duplicate_pubkeys [pk] = true := by
      simp [check_no_duplicate_pubkeys]
    rw [hchk]
    simp only [Bool.not_true, Bool.false_eq_true, if_false]
    rw [augFill, hres]
    simp only [augFill]
    have hinput : writeSlice
        (writeSlice (writeSlice (writeSlice (List.replicate (192 * (0 + 1 + 1)) 0)
            (192 * 0) (M.enc1 a)) (192 * 0 + 64) pk)
          (192 * (0 + 1)) (M.enc1 (M.decScalar sk * a)))
        (192 * (0 + 1) + 64) G2_MINUS_ONE
        = M.enc1 a ++ (pk ++ (M.enc1 (M.decScalar sk * a) ++ G2_MINUS_ONE)) := by
      have h384 : (192 * (0 + 1 + 1) : Nat) = 384 := by norm_num
      have h0 : (192 * 0 : Nat) = 0 := by norm_num
      have h64 : (192 * 0 + 64 : Nat) = 64 := by norm_num
      have h192 : (192 * (0 + 1) : Nat) = 192 := by norm_num
      have h256 : (192 * (0 + 1) + 64 : Nat) = 256 := by norm_num
      rw [h384, h0, h64, h192, h256]
      exact twoPairInput_eq (M.enc1 a) pk (M.enc1 (M.decScalar sk * a))
        hh64 hpk128 hsl64
    rw [hinput]
    have hpair : (mkOracles M).pairing
        (M.enc1 a ++ (pk ++ (M.enc1 (M.decScalar sk * a) ++ G2_MINUS_ONE)))
        = some GT_ONE := by
      simp only [mkOracles]
      rw [chunks192_two_pairs (M.enc1 a) pk (M.enc1 (M.decScalar sk * a))
        G2_MINUS_ONE hh64 hpk128 hsl64 G2_MINUS_ONE_length]
      have hdecode : decodePairs M
          [(M.enc1 a, pk), (M.enc1 (M.decScalar sk * a), G2_MINUS_ONE)]
          = some [(a, M.decScalar sk), (M.decScalar sk * a, -1)] := by
        simp [decodePairs, M.dec1_enc1, hpksk, M.dec2_g2MinusOne]
      simp only [hdecode]
      have hsum : pairingSum
          [(a, M.decScalar sk), (M.decScalar sk * a, (-1 : ZMod r))] = 0 := by
        simp only [pairingSum, List.map_cons, List.map_nil, List.sum_cons,
          List.sum_nil]
        ring
      rw [if_pos hsum]
    rw [hpair]
    simp [isGTOne_GT_ONE]

set_option maxRecDepth 10000 in
/-- Witness for C6 at the concrete model: the secret key of value `3`, its
G2 public key, and the empty message.  The hash of `pk ‖ m` lands on the
point with exponent `2`, the augmented partial is the point with exponent
`6 = 3·2`, and augmented verification of that partial under `[pk]`
accepts. -/
theorem augmented_sign_verifies_witness :
    (blsPartSignAugmented (mkOracles modelW) (List.replicate 31 0 ++ [3]) []
        (2 :: 3 :: List.replicate 126 0)).1
      = Except.ok (1 :: 6 :: List.replicate 62 0)
    ∧ (verify_augmented (mkOracles modelW) [] [2 :: 3 :: List.replicate 126 0]
        (1 :: 6 :: List.replicate 62 0)).1 = Except.ok () :=
  ⟨by decide,
    (augmented_sign_verifies 7 modelW (List.replicate 31 0 ++ [3]) []
      (2 :: 3 :: List.replicate 126 0) (1 :: 6 :: List.replicate 62 0)
      [OCall.sha [DST, (2 :: 3 :: List.replicate 126 0 : Bytes) ++ [], [0]],
        OCall.g1decompress [1],
        OCall.g1mul ((1 :: 2 :: List.replicate 62 0 : Bytes)
          ++ (List.replicate 31 0 ++ [3]))]
      (by decide) (by decide) (by decide) (by decide)).2⟩
